import Mathlib

/-!
# Verification of the Circles SDK path-processing and flow-matrix pipeline

Shallow embedding of the core of the `circles_sdk` Python package:

* `core/flow_matrix.py` — `pack_coordinates`, `transform_to_flow_vertices`,
  `create_flow_matrix`;
* `pathfinding/path_processor.py` — `replace_wrapped_tokens`,
  `shrink_path_values`, `process_path_for_wrapped_tokens`,
  `assert_no_netted_flow_mismatch`, `_get_source_and_sink`,
  `_compute_netted_flow`;
* `core/token_info.py` — wrapped-token classification and totals;
* `transfers/advanced.py` — the validation portion of
  `AdvancedTransfer.transitive_transfer` up to the first external call;
* `core/types.py` — the pydantic data model and its field validators.

Modelling conventions:

* Python `str` addresses are Lean `String`; the code's `.lower()` calls are
  `pyLower` (character-wise ASCII lowercasing, kernel-computable), placed
  exactly where the source calls them, and `.startswith` is `strLeadsWith`.
* Step values and flow totals are string-encoded integers in the source,
  validated by `int(v)` at construction and declared non-negative by the
  data model; they are modelled as `Nat`.  Python `//` and `%` on
  non-negative integers agree with `Nat.div` / `Nat.mod`.
* Python `dict` is an insertion-ordered association list (`alGet`, `alSet`);
  updating an existing key keeps its position, a new key is appended, which
  matches CPython semantics.  Python `set` is modelled through deduplicated
  lists (`List.dedup`): only membership and the cardinality of filtered
  subsets are ever observed.
* Raising an exception is modelled with `Except PyExn`; each constructor of
  `PyExn` is one of the exception classes the code can raise.

Everything lives in the `Circles` namespace so that the source's own class
names (`Stream`, …) can be kept without clashing with the Lean prelude.
-/

namespace Circles

/-- Exceptions raised by the modelled code paths.  `valueError` is Python's
builtin `ValueError`, `indexError` the builtin `IndexError`,
`pathfindingError` / `flowMatrixError` the SDK classes from
`core/exceptions.py`, and `pydanticValidationError` the pydantic
`ValidationError` produced when a pydantic model's field validator raises. -/
inductive PyExn where
  | valueError (msg : String)
  | indexError
  | pathfindingError (msg : String)
  | flowMatrixError (msg : String)
  | pydanticValidationError (msg : String)
  deriving DecidableEq, Repr

/-- `TransferStep` from `core/types.py`: one hop of a payment path.
Addresses are lowercased hex strings; `value` is a string-encoded
non-negative integer, modelled as `Nat`. -/
structure TransferStep where
  from_address : String
  to_address : String
  token_owner : String
  value : Nat
  deriving DecidableEq, Repr

/-- `PathfindingResult` from `core/types.py`. -/
structure PathfindingResult where
  max_flow : Nat
  transfers : List TransferStep
  deriving DecidableEq, Repr

/-- `FlowEdge` from `core/types.py`. -/
structure FlowEdge where
  stream_sink_id : Nat
  amount : Nat
  deriving DecidableEq, Repr

/-- `Stream` from `core/types.py`; `data` is a byte string, modelled as a
list of byte values. -/
structure Stream where
  source_coordinate : Nat
  flow_edge_ids : List Nat
  data : List Nat
  deriving DecidableEq, Repr

/-- `FlowMatrix` from `core/types.py`. -/
structure FlowMatrix where
  flow_vertices : List String
  flow_edges : List FlowEdge
  streams : List Stream
  packed_coordinates : List Nat
  source_coordinate : Nat
  deriving DecidableEq, Repr

/-! ## Kernel-computable string primitives -/

/-- `str.lower()`.  (`String.toLower` itself is defined through byte-position
recursion that the kernel cannot evaluate; mapping `Char.toLower` over the
character list is the same function on the ASCII addresses and type tags
this code handles, and is kernel-computable.) -/
def pyLower (s : String) : String := ⟨s.data.map Char.toLower⟩

/-- `pat` is a leading run of `s` (as character lists). -/
def leadsWith : List Char → List Char → Bool
  | [], _ => true
  | _, [] => false
  | c :: cs, d :: ds => c == d && leadsWith cs ds

/-- `s.startswith(pat)`, kernel-computable. -/
def strLeadsWith (pat s : String) : Bool := leadsWith pat.data s.data

/-! ## Python `dict` as an insertion-ordered association list -/

/-- `d.get(k)`: value of the first (unique) entry with key `k`. -/
def alGet {β : Type} : List (String × β) → String → Option β
  | [], _ => none
  | e :: d, k => if e.1 = k then some e.2 else alGet d k

/-- `d.get(k, v₀)`. -/
def alGetD {β : Type} (d : List (String × β)) (k : String) (v₀ : β) : β :=
  (alGet d k).getD v₀

/-- `d[k] = v`: replace in place if the key exists (keys are unique, so
replacing the first match is enough), otherwise append — CPython keeps the
insertion position of an updated key. -/
def alSet {β : Type} : List (String × β) → String → β → List (String × β)
  | [], k, v => [(k, v)]
  | e :: d, k, v => if e.1 = k then (k, v) :: d else e :: alSet d k v

theorem alGet_alSet {β : Type} (d : List (String × β)) (k a : String) (v : β) :
    alGet (alSet d k v) a = if a = k then some v else alGet d a := by
  induction d with
  | nil =>
    simp only [alSet, alGet]
    by_cases hak : a = k
    · rw [if_pos hak.symm, if_pos hak]
    · rw [if_neg (fun h => hak h.symm), if_neg hak]
  | cons e d ih =>
    by_cases hek : e.1 = k
    · simp only [alSet, if_pos hek, alGet]
      by_cases hak : a = k
      · rw [if_pos hak.symm, if_pos hak]
      · rw [if_neg (fun h => hak h.symm), if_neg hak,
          if_neg (fun h : e.1 = a => hak (h.symm.trans hek))]
    · simp only [alSet, if_neg hek, alGet, ih]
      by_cases hea : e.1 = a
      · have hak : ¬ a = k := fun h => hek (h ▸ hea)
        rw [if_pos hea, if_neg hak, if_pos hea]
      · rw [if_neg hea, if_neg hea]

theorem keys_alSet {β : Type} (d : List (String × β)) (k a : String) (v : β) :
    a ∈ (alSet d k v).map Prod.fst ↔ a = k ∨ a ∈ d.map Prod.fst := by
  induction d with
  | nil => simp [alSet]
  | cons e d ih =>
    by_cases hek : e.1 = k
    · simp only [alSet, if_pos hek, List.map_cons, List.mem_cons]
      constructor
      · rintro (h | h)
        · exact Or.inl h
        · exact Or.inr (Or.inr h)
      · rintro (h | h | h)
        · exact Or.inl h
        · exact Or.inl (hek ▸ h)
        · exact Or.inr h
    · simp only [alSet, if_neg hek, List.map_cons, List.mem_cons, ih]
      tauto

theorem nodupKeys_alSet {β : Type} (d : List (String × β)) (k : String) (v : β)
    (h : (d.map Prod.fst).Nodup) : ((alSet d k v).map Prod.fst).Nodup := by
  induction d with
  | nil => simp [alSet]
  | cons e d ih =>
    rw [List.map_cons, List.nodup_cons] at h
    by_cases hek : e.1 = k
    · simp only [alSet, if_pos hek, List.map_cons, List.nodup_cons]
      exact ⟨hek ▸ h.1, h.2⟩
    · simp only [alSet, if_neg hek, List.map_cons, List.nodup_cons]
      refine ⟨fun hmem => ?_, ih h.2⟩
      rcases (keys_alSet d k e.1 v).mp hmem with h1 | h1
      · exact hek h1
      · exact h.1 h1

theorem mem_iff_alGet {β : Type} (d : List (String × β)) (a : String) (b : β)
    (h : (d.map Prod.fst).Nodup) : (a, b) ∈ d ↔ alGet d a = some b := by
  induction d with
  | nil => simp [alGet]
  | cons e d ih =>
    rw [List.map_cons, List.nodup_cons] at h
    by_cases hea : e.1 = a
    · simp only [List.mem_cons, alGet, if_pos hea, Option.some.injEq]
      constructor
      · rintro (rfl | hmem)
        · rfl
        · exact absurd (hea ▸ List.mem_map_of_mem Prod.fst hmem) h.1
      · rintro rfl
        exact Or.inl (by cases e; simp_all)
    · simp only [List.mem_cons, alGet, if_neg hea]
      rw [← ih h.2]
      constructor
      · rintro (h1 | h1)
        · exact absurd (congrArg Prod.fst h1).symm hea
        · exact h1
      · exact Or.inr

theorem alGet_isSome_iff {β : Type} (d : List (String × β)) (a : String) :
    (alGet d a).isSome = true ↔ a ∈ d.map Prod.fst := by
  induction d with
  | nil => simp [alGet]
  | cons e d ih =>
    by_cases hea : e.1 = a
    · simp [alGet, if_pos hea, hea.symm]
    · simp only [alGet, if_neg hea, List.map_cons, List.mem_cons, ih]
      exact ⟨Or.inr, fun h => h.elim (fun h1 => absurd h1.symm hea) id⟩

/-! ## `pack_coordinates` (core/flow_matrix.py, lines 10–30)

For each coordinate the source computes `hi = (coord >> 8) & 0xFF` and
`lo = coord & 0xFF` and stores them consecutively; on non-negative integers
these equal `coord / 256 % 256` and `coord % 256`. -/

/-- `pack_coordinates`: big-endian 16-bit packing, two bytes per value. -/
def packCoordinates (coords : List Nat) : List Nat :=
  coords.flatMap (fun c => [c / 256 % 256, c % 256])

/-- Big-endian 16-bit decoder used to state the round-trip property: read the
buffer two bytes at a time. -/
def unpack16BE : List Nat → List Nat
  | hi :: lo :: rest => (hi * 256 + lo) :: unpack16BE rest
  | _ => []

/-! ## `transform_to_flow_vertices` and `create_flow_matrix`
(core/flow_matrix.py, lines 33–151) -/

/-- Value of one hex digit; addresses reaching `int(addr, 16)` are valid hex
strings (any non-hex character would raise in Python, which no modelled call
path can trigger — every caller passes `0x`-prefixed hex addresses). -/
def hexDigitVal (c : Char) : Nat :=
  if '0' ≤ c ∧ c ≤ '9' then c.toNat - '0'.toNat
  else if 'a' ≤ c ∧ c ≤ 'f' then c.toNat - 'a'.toNat + 10
  else if 'A' ≤ c ∧ c ≤ 'F' then c.toNat - 'A'.toNat + 10
  else 0

/-- `int(addr, 16)`: numeric value of a hex string, accepting an optional
`0x` lead-in just as Python does. -/
def hexVal (s : String) : Nat :=
  let body := if strLeadsWith "0x" s then s.data.drop 2 else s.data
  body.foldl (fun acc c => 16 * acc + hexDigitVal c) 0

/-- `transform_to_flow_vertices` (lines 33–63): the set of all lowercased
addresses occurring in the call, sorted by numeric hex value.  The Python
`set` has arbitrary iteration order; `sorted` with distinct keys makes the
result deterministic, and only membership and order-by-key are ever
observed, so a `dedup` of the occurrence list is a faithful model.
The returned `idx` dict maps each address to its position in this list,
which `List.indexOf` recovers, so only the list is returned here. -/
def transformToFlowVertices (transfers : List TransferStep)
    (from_addr to_addr : String) : List String :=
  let addresses :=
    ([pyLower from_addr, pyLower to_addr] ++
      transfers.flatMap (fun t =>
        [pyLower t.from_address, pyLower t.to_address, pyLower t.token_owner])).dedup
  List.insertionSort (fun a b => hexVal a ≤ hexVal b) addresses

/-- Lines 95–101 of `create_flow_matrix`: one edge per step, terminal iff the
step's `to` equals the receiver. -/
def mkFlowEdges (receiver : String) (transfers : List TransferStep) : List FlowEdge :=
  transfers.map (fun t =>
    { stream_sink_id := if pyLower t.to_address = receiver then 1 else 0
      amount := t.value })

/-- The `for i, transfer in enumerate(transfers)` loop of lines 107–110:
index of the last step whose `to` equals the receiver, `-1` if none. -/
def lastIdxAux (receiver : String) : Nat → Int → List TransferStep → Int
  | _, acc, [] => acc
  | i, acc, t :: ts =>
      lastIdxAux receiver (i + 1)
        (if pyLower t.to_address = receiver then (i : Int) else acc) ts

/-- `last_edge_index` after the loop. -/
def lastToReceiverIdx (receiver : String) (transfers : List TransferStep) : Int :=
  lastIdxAux receiver 0 (-1) transfers

/-- Replace the element at position `i` by `f` applied to it. -/
def modifyIdx {α : Type} (f : α → α) : Nat → List α → List α
  | _, [] => []
  | 0, a :: l => f a :: l
  | n + 1, a :: l => a :: modifyIdx f n l

/-- Python item access/assignment semantics for `flow_edges[i]`: a negative
index counts from the end; an index out of range raises `IndexError`. -/
def pyModIdx {α : Type} (l : List α) (i : Int) (f : α → α) : Option (List α) :=
  let j := if i < 0 then (l.length : Int) + i else i
  if 0 ≤ j ∧ j < (l.length : Int) then some (modifyIdx f j.toNat l) else none

/-- Lines 103–114 of `create_flow_matrix`: if no edge is terminal, force the
last step whose `to` equals the receiver terminal, falling back to the last
edge; `flow_edges[-1]` on an empty list raises `IndexError`. -/
def forceTerminal (receiver : String) (transfers : List TransferStep)
    (edges : List FlowEdge) : Option (List FlowEdge) :=
  if edges.any (fun e => e.stream_sink_id == 1) then some edges
  else
    let lastEdgeIndex := lastToReceiverIdx receiver transfers
    let fallbackIndex := if lastEdgeIndex ≠ -1 then lastEdgeIndex
      else (edges.length : Int) - 1
    pyModIdx edges fallbackIndex (fun e => { e with stream_sink_id := 1 })

/-- Sum of `amount` over the terminal (`stream_sink_id == 1`) edges —
the `terminal_sum` of lines 138–139. -/
def terminalSum (edges : List FlowEdge) : Nat :=
  ((edges.filter (fun e => e.stream_sink_id == 1)).map (fun e => e.amount)).sum

/-- `create_flow_matrix` (lines 66–151).  `value` is the caller's expected
total, already parsed (`expected = int(value)` in the source); all modelled
callers pass a validated integer string. -/
def createFlowMatrix (from_addr to_addr : String) (value : Nat)
    (transfers : List TransferStep) : Except PyExn FlowMatrix :=
  let sender := pyLower from_addr
  let receiver := pyLower to_addr
  let flowVertices := transformToFlowVertices transfers sender receiver
  let idx := fun (a : String) => flowVertices.indexOf a
  match forceTerminal receiver transfers (mkFlowEdges receiver transfers) with
  | none => .error .indexError
  | some flowEdges =>
    let termEdgeIds :=
      ((flowEdges.enum).filter (fun p => p.2.stream_sink_id == 1)).map (fun p => p.1)
    let streams : List Stream := [⟨idx sender, termEdgeIds, []⟩]
    let coords := transfers.flatMap (fun t =>
      [idx (pyLower t.token_owner), idx (pyLower t.from_address), idx (pyLower t.to_address)])
    let packed := packCoordinates coords
    if terminalSum flowEdges ≠ value then
      .error (.valueError
        s!"Terminal sum {terminalSum flowEdges} does not equal expected {value}")
    else
      .ok ⟨flowVertices, flowEdges, streams, packed, idx sender⟩

/-! ## `shrink_path_values` (pathfinding/path_processor.py, lines 67–137) -/

/-- `_IndexedTransferStep` (lines 18–25): a `TransferStep` plus its original
position, used to re-establish order after processing. -/
structure IndexedTransferStep where
  from_address : String
  to_address : String
  token_owner : String
  value : Nat
  idx : Nat
  deriving DecidableEq, Repr

/-- The `for i, transfer in enumerate(path.transfers)` loop of lines 89–107:
scale each value by `retain_bps / 10^12` (integer division), drop steps that
scale to zero, record survivors with their original index, and accumulate
each surviving step's scaled value against its receiving address. -/
def shrinkLoop (retainBps : Nat) :
    Nat → List TransferStep → List (String × Nat) → List IndexedTransferStep →
    List (String × Nat) × List IndexedTransferStep
  | _, [], incoming, scaled => (incoming, scaled)
  | i, t :: ts, incoming, scaled =>
    let scaledValue := t.value * retainBps / 1000000000000
    if scaledValue = 0 then shrinkLoop retainBps (i + 1) ts incoming scaled
    else
      let toAddr := pyLower t.to_address
      shrinkLoop retainBps (i + 1) ts
        (alSet incoming toAddr (alGetD incoming toAddr 0 + scaledValue))
        (scaled ++ [⟨t.from_address, t.to_address, t.token_owner, scaledValue, i⟩])

/-- `shrink_path_values` (lines 67–137).  The source's default argument is
`retain_bps = 999_999_999_999`; callers of the model pass it explicitly. -/
def shrinkPathValues (path : PathfindingResult) (retainBps : Nat) :
    PathfindingResult :=
  let acc := shrinkLoop retainBps 0 path.transfers [] []
  let incomingToSink := acc.1
  let scaled := acc.2
  -- senders set (line 110): only membership is observed
  let senders : List String := (scaled.map (fun t => pyLower t.from_address)).dedup
  -- first surviving receiver that is not a sender (lines 111–115)
  let sink := (scaled.find? (fun t => decide (pyLower t.to_address ∉ senders))).map
    (fun t => pyLower t.to_address)
  -- line 118: `incoming_to_sink.get(sink, 0) if sink else 0`
  let maxFlow := match sink with
    | some s => alGetD incomingToSink s 0
    | none => 0
  -- line 121: stable sort by original index (a no-op, proved later)
  let sortedScaled := List.insertionSort (fun a b => a.idx ≤ b.idx) scaled
  { max_flow := maxFlow
    transfers := sortedScaled.map (fun s =>
      ⟨s.from_address, s.to_address, s.token_owner, s.value⟩) }

/-! ## Token classification (core/token_info.py) -/

/-- `TokenInfoRow` (token_info.py, lines 21–38).  `token` and `token_owner`
are lowercased at construction in the source. -/
structure TokenInfoRow where
  timestamp : Nat
  transaction_hash : String
  version : Nat
  type : String
  token : String
  token_owner : String
  deriving DecidableEq, Repr

/-- `TokenInfoRow.is_wrapped` (lines 40–43). -/
def TokenInfoRow.is_wrapped (r : TokenInfoRow) : Bool :=
  strLeadsWith "CrcV2_ERC20WrapperDeployed" r.type

/-- `get_wrapped_token_totals_from_path` (token_info.py, lines 180–212):
for each step whose `token_owner` is classified as a wrapper, accumulate its
value against that wrapper address, paired with the wrapper's type tag.
`token_info_map` is the result of the external metadata lookup, passed in as
data. -/
def getWrappedTokenTotalsFromPath (path : PathfindingResult)
    (tokenInfoMap : List (String × TokenInfoRow)) :
    List (String × (Nat × String)) :=
  path.transfers.foldl (fun totals t =>
    let tokenAddr := pyLower t.token_owner
    match alGet tokenInfoMap tokenAddr with
    | none => totals
    | some info =>
      if info.is_wrapped then
        let totals1 := if (alGet totals tokenAddr).isNone
          then alSet totals tokenAddr (0, info.type) else totals
        match alGet totals1 tokenAddr with
        | some cur => alSet totals1 tokenAddr (cur.1 + t.value, cur.2)
        | none => totals1  -- unreachable: the key was just ensured present
      else totals) []

/-- `_atto_circles_to_atto_static_circles` (lines 264–272): a placeholder
identity in the source. -/
def attoCirclesToAttoStaticCircles (amount : Nat) : Nat := amount

/-- `_atto_static_circles_to_atto_circles` (lines 275–283): a placeholder
identity in the source. -/
def attoStaticCirclesToAttoCircles (amount : Nat) : Nat := amount

/-- `get_expected_unwrapped_token_totals` (token_info.py, lines 215–261). -/
def getExpectedUnwrappedTokenTotals
    (wrappedTotals : List (String × (Nat × String)))
    (tokenInfoMap : List (String × TokenInfoRow)) :
    List (String × (Nat × String)) :=
  wrappedTotals.foldl (fun unwrapped e =>
    let wrapperAddr := e.1
    let total := e.2.1
    let tokenType := e.2.2
    match alGet tokenInfoMap (pyLower wrapperAddr) with
    | none => unwrapped
    | some info =>
      let isDemurraged := tokenType = "CrcV2_ERC20WrapperDeployed_Demurraged"
      let isInflationary := tokenType = "CrcV2_ERC20WrapperDeployed_Inflationary"
      let unwrapAmount := if isDemurraged then total
        else if isInflationary then attoCirclesToAttoStaticCircles total
        else total
      let availableAfterUnwrap := if isDemurraged then unwrapAmount
        else attoStaticCirclesToAttoCircles unwrapAmount
      alSet unwrapped wrapperAddr (availableAfterUnwrap, info.token_owner)) []

/-- `replace_wrapped_tokens` (path_processor.py, lines 28–64). -/
def replaceWrappedTokens (path : PathfindingResult)
    (unwrappedTotals : List (String × (Nat × String))) : PathfindingResult :=
  { max_flow := path.max_flow
    transfers := path.transfers.map (fun t =>
      let unwrapInfo := alGet unwrappedTotals (pyLower t.token_owner)
      { from_address := t.from_address
        to_address := t.to_address
        token_owner := match unwrapInfo with
          | some info => info.2
          | none => t.token_owner
        value := t.value }) }

/-- `process_path_for_wrapped_tokens` (path_processor.py, lines 140–186).
The `await get_token_info_map_from_path` external lookup is replaced by the
`tokenInfoMap` argument holding its result. -/
def processPathForWrappedTokens (tokenInfoMap : List (String × TokenInfoRow))
    (path : PathfindingResult) : PathfindingResult × Bool :=
  let wrappedTotals := getWrappedTokenTotalsFromPath path tokenInfoMap
  let unwrappedTotals := getExpectedUnwrappedTokenTotals wrappedTotals tokenInfoMap
  let pathUnwrapped := replaceWrappedTokens path unwrappedTotals
  let hasInflationaryWrapper := wrappedTotals.any
    (fun e => e.2.2 == "CrcV2_ERC20WrapperDeployed_Inflationary")
  if hasInflationaryWrapper then (shrinkPathValues pathUnwrapped 999999999999, true)
  else (pathUnwrapped, false)

/-! ## Conservation check (path_processor.py, lines 189–268) -/

/-- The `for transfer in path.transfers` loop of `_compute_netted_flow`
(lines 258–266): subtract each amount from its sender's entry and add it to
its receiver's entry. -/
def nettedFlowLoop : List TransferStep → List (String × Int) → List (String × Int)
  | [], netFlow => netFlow
  | t :: ts, netFlow =>
    let amount : Int := t.value
    let fromAddr := pyLower t.from_address
    let toAddr := pyLower t.to_address
    let netFlow1 := alSet netFlow fromAddr (alGetD netFlow fromAddr 0 - amount)
    nettedFlowLoop ts (alSet netFlow1 toAddr (alGetD netFlow1 toAddr 0 + amount))

/-- `_compute_netted_flow` (lines 246–268). -/
def computeNettedFlow (path : PathfindingResult) : List (String × Int) :=
  nettedFlowLoop path.transfers []

/-- `_get_source_and_sink` (lines 219–243).  `headD ""` reads the single
element of the length-one candidate lists (`sources[0]` / `sinks[0]`). -/
def getSourceAndSink (path : PathfindingResult) :
    Except PyExn (String × String) :=
  let senders : List String := (path.transfers.map (fun t => pyLower t.from_address)).dedup
  let receivers : List String := (path.transfers.map (fun t => pyLower t.to_address)).dedup
  let sources := senders.filter (fun a => decide (a ∉ receivers))
  let sinks := receivers.filter (fun a => decide (a ∉ senders))
  if sources.length ≠ 1 ∨ sinks.length ≠ 1 then
    .error (.pathfindingError "Could not determine unique source / sink")
  else .ok (sources.headD "", sinks.headD "")

/-- The `for addr, balance in net_flow.items()` loop of
`assert_no_netted_flow_mismatch` (lines 204–216): the first violating entry
raises. -/
def checkNetFlowEntries (source sink : String) :
    List (String × Int) → Except PyExn Unit
  | [] => .ok ()
  | (addr, balance) :: rest =>
    if addr = source ∧ balance ≥ 0 then
      .error (.pathfindingError s!"Source {addr} should be net negative, got {balance}")
    else if addr = sink ∧ balance ≤ 0 then
      .error (.pathfindingError s!"Sink {addr} should be net positive, got {balance}")
    else if addr ≠ source ∧ addr ≠ sink ∧ balance ≠ 0 then
      .error (.pathfindingError s!"Vertex {addr} is unbalanced: {balance}")
    else checkNetFlowEntries source sink rest

/-- `assert_no_netted_flow_mismatch` (lines 189–216). -/
def assertNoNettedFlowMismatch (path : PathfindingResult) : Except PyExn Unit := do
  let sourceSink ← getSourceAndSink path
  checkNetFlowEntries sourceSink.1 sourceSink.2 (computeNettedFlow path)

/-! ## `FindPathParams` validation and the `transitive_transfer` prelude
(core/types.py lines 72–107, transfers/advanced.py lines 67–120) -/

/-- `FindPathParams` from `core/types.py`. -/
structure FindPathParams where
  from_addr : String
  to_addr : String
  target_flow : String
  use_wrapped_balances : Bool
  from_tokens : Option (List String)
  to_tokens : Option (List String)
  exclude_from_tokens : Option (List String)
  exclude_to_tokens : Option (List String)
  deriving DecidableEq, Repr

/-- The `validate_address` field validator of `FindPathParams`
(types.py, lines 86–90): must start with `0x` and have length 42;
the accepted value is lowercased. -/
def validateAddressField (v : String) : Except PyExn String :=
  if ¬ (strLeadsWith "0x" v = true) ∨ v.length ≠ 42 then
    .error (.pydanticValidationError s!"Invalid Ethereum address: {v}")
  else .ok (pyLower v)

/-- Success of Python `int(s)` on the canonical integer literals this code
produces (`str(i)` for an `int` `i`): an optional minus sign followed by
digits.  (Python's `int` also strips whitespace and accepts `+` and
underscores; no modelled caller produces those forms.) -/
def isIntString (s : String) : Bool :=
  match s.data with
  | [] => false
  | c :: rest =>
    if c = '-' then !rest.isEmpty && rest.all (fun x => x.isDigit)
    else (c :: rest).all (fun x => x.isDigit)

/-- The `validate_target_flow` field validator (types.py, lines 92–98). -/
def validateTargetFlowField (v : String) : Except PyExn String :=
  if isIntString v then .ok v
  else .error (.pydanticValidationError s!"target_flow must be a valid integer string: {v}")

/-- The `validate_token_lists` field validator (types.py, lines 100–107). -/
def validateTokenListField (v : Option (List String)) :
    Except PyExn (Option (List String)) :=
  match v with
  | none => .ok none
  | some addrs =>
    match addrs.find? (fun a => !(strLeadsWith "0x" a && a.length == 42)) with
    | some bad => .error (.pydanticValidationError s!"Invalid token address: {bad}")
    | none => .ok (some (addrs.map (fun a => pyLower a)))

/-- Construction of `FindPathParams`, running the pydantic field validators.
pydantic v1 aggregates all field failures into one `ValidationError`; the
model fails on the first, which has the same success/failure behaviour and
the same exception class. -/
def mkFindPathParams (from_addr to_addr target_flow : String)
    (use_wrapped_balances : Bool)
    (from_tokens to_tokens exclude_from_tokens exclude_to_tokens :
      Option (List String)) : Except PyExn FindPathParams := do
  let f ← validateAddressField from_addr
  let t ← validateAddressField to_addr
  let tf ← validateTargetFlowField target_flow
  let ft ← validateTokenListField from_tokens
  let tt ← validateTokenListField to_tokens
  let eft ← validateTokenListField exclude_from_tokens
  let ett ← validateTokenListField exclude_to_tokens
  pure ⟨f, t, tf, use_wrapped_balances, ft, tt, eft, ett⟩

/-- `AdvancedTransfer._truncate_to_six_decimals` (advanced.py, lines
274–281): a placeholder identity in the source. -/
def truncateToSixDecimals (amount : Int) : Int := amount

/-- Everything `AdvancedTransfer.transitive_transfer` (advanced.py, lines
98–120) does before its first external call
(`await self._pathfinder_client.find_path(find_params)`, line 120):
lowercase the addresses, truncate the amount, and build `FindPathParams`
(running its validators).  A `.ok` result means the pathfinder call is
reached with these parameters; `.error` means the call fails beforehand. -/
def transitiveTransferPrelude (from_addr to_addr : String) (amount : Int)
    (use_wrapped_balances : Bool)
    (from_tokens to_tokens exclude_from_tokens exclude_to_tokens :
      Option (List String)) : Except PyExn FindPathParams :=
  let f := pyLower from_addr
  let t := pyLower to_addr
  let amt := truncateToSixDecimals amount
  mkFindPathParams f t (toString amt) use_wrapped_balances
    from_tokens to_tokens exclude_from_tokens exclude_to_tokens

/-! ## Specification-side predicates used to state the claims -/

/-- One application of the shrink scaling (spec: `value * retain_bps / 10^12`
truncating, dropping steps scaled to zero). -/
def scaleStep (retainBps : Nat) (t : TransferStep) : Option TransferStep :=
  let scaledValue := t.value * retainBps / 1000000000000
  if scaledValue = 0 then none
  else some { from_address := t.from_address, to_address := t.to_address,
              token_owner := t.token_owner, value := scaledValue }

/-- Vertex `a` sends in path `p` (appears as a lowered `from`). -/
def sends (p : PathfindingResult) (a : String) : Prop :=
  ∃ t ∈ p.transfers, pyLower t.from_address = a

/-- Vertex `a` receives in path `p` (appears as a lowered `to`). -/
def receives (p : PathfindingResult) (a : String) : Prop :=
  ∃ t ∈ p.transfers, pyLower t.to_address = a

/-- Signed contribution of one step to vertex `a`'s net flow. -/
def stepNet (a : String) (t : TransferStep) : Int :=
  (if pyLower t.to_address = a then (t.value : Int) else 0) -
  (if pyLower t.from_address = a then (t.value : Int) else 0)

/-- Net flow of vertex `a`: incoming minus outgoing amounts. -/
def netFlowOf (p : PathfindingResult) (a : String) : Int :=
  (p.transfers.map (stepNet a)).sum

/-- `s` is the unique vertex that sends but never receives. -/
def uniqueSource (p : PathfindingResult) (s : String) : Prop :=
  (sends p s ∧ ¬ receives p s) ∧ ∀ b, sends p b ∧ ¬ receives p b → b = s

/-- `k` is the unique vertex that receives but never sends. -/
def uniqueSink (p : PathfindingResult) (k : String) : Prop :=
  (receives p k ∧ ¬ sends p k) ∧ ∀ b, receives p b ∧ ¬ sends p b → b = k

/-- The conservation property of the claim: a unique source with strictly
negative net flow, a unique sink with strictly positive net flow, and zero
net flow everywhere else. -/
def conservationOk (p : PathfindingResult) : Prop :=
  ∃ s k, uniqueSource p s ∧ uniqueSink p k ∧
    netFlowOf p s < 0 ∧ 0 < netFlowOf p k ∧
    ∀ a, (sends p a ∨ receives p a) → a ≠ s → a ≠ k → netFlowOf p a = 0

/-! ## Claims about `pack_coordinates` (C4, C3) -/

/-- C4: for every list of integers each in `[0, 65535]`, `pack_coordinates`
produces a buffer of length exactly `2 × len(coordinates)`, and decoding it
two bytes at a time as big-endian unsigned 16-bit integers reproduces the
original list exactly. -/
theorem pack_coordinates_round_trip (coords : List Nat)
    (h : ∀ c ∈ coords, c ≤ 65535) :
    (packCoordinates coords).length = 2 * coords.length ∧
    unpack16BE (packCoordinates coords) = coords := by
  induction coords with
  | nil => exact ⟨rfl, rfl⟩
  | cons c cs ih =>
    obtain ⟨ih1, ih2⟩ := ih (fun x hx => h x (List.mem_cons_of_mem _ hx))
    have hc : c ≤ 65535 := h c (List.mem_cons_self _ _)
    have hpack : packCoordinates (c :: cs) =
        c / 256 % 256 :: c % 256 :: packCoordinates cs := rfl
    constructor
    · rw [hpack, List.length_cons, List.length_cons, ih1, List.length_cons]
      ring
    · rw [hpack, unpack16BE, ih2]
      have : c / 256 % 256 * 256 + c % 256 = c := by omega
      rw [this]

/-- Witness for C4 at a concrete coordinate list. -/
theorem pack_coordinates_round_trip_witness :
    (packCoordinates [0, 1, 65535, 258]).length = 2 * ([0, 1, 65535, 258] : List Nat).length ∧
    unpack16BE (packCoordinates [0, 1, 65535, 258]) = [0, 1, 65535, 258] :=
  pack_coordinates_round_trip [0, 1, 65535, 258] (by decide)

/-- C3, counterexample: packing does not fail on a coordinate that exceeds
16 bits — `pack_coordinates` is total and silently wraps, so the coordinate
65536 produces the same two bytes as the coordinate 0. -/
theorem pack_coordinates_overflow_counterexample :
    packCoordinates [65536] = [0, 0] ∧ packCoordinates [0] = [0, 0] := by
  constructor <;> rfl

/-- C3, amended: there is no 16-bit overflow check anywhere in encoding.
`pack_coordinates` serializes every coordinate modulo 2^16 (so a vertex set
exceeding 65536 entries yields wrapped coordinate bytes, not an error), and
`create_flow_matrix` never fails with `FlowMatrixError` — its only failure
modes are the terminal-sum `ValueError` and the empty-input `IndexError`. -/
theorem pack_coordinates_wraps_mod_65536 :
    (∀ coords : List Nat,
      packCoordinates coords = packCoordinates (coords.map (fun c => c % 65536))) ∧
    (∀ (f t : String) (v : Nat) (ts : List TransferStep) (e : PyExn),
      createFlowMatrix f t v ts = .error e →
        e = .indexError ∨ ∃ m, e = .valueError m) := by
  constructor
  · intro coords
    induction coords with
    | nil => rfl
    | cons c cs ih =>
      show c / 256 % 256 :: c % 256 :: packCoordinates cs =
        c % 65536 / 256 % 256 :: c % 65536 % 256 :: packCoordinates (cs.map _)
      have h1 : c % 65536 / 256 % 256 = c / 256 % 256 := by omega
      have h2 : c % 65536 % 256 = c % 256 := by omega
      rw [h1, h2, ih]
  · intro f t v ts e h
    simp only [createFlowMatrix] at h
    split at h
    · injection h with h1
      exact Or.inl h1.symm
    · split at h
      · injection h with h1
        exact Or.inr ⟨_, h1.symm⟩
      · exact absurd h (by simp)

/-- Witness for the amended C3 at a concrete failing input (the empty list,
which fails with `IndexError`, not `FlowMatrixError`). -/
theorem pack_coordinates_wraps_witness :
    PyExn.indexError = PyExn.indexError ∨ ∃ m, PyExn.indexError = PyExn.valueError m :=
  pack_coordinates_wraps_mod_65536.2 "0xa" "0xb" 5 [] .indexError rfl

/-! ## C9: `create_flow_matrix` on an empty step list -/

/-- C9: with an empty step list no edge is terminal and the forced-terminal
fallback computes index `len(flow_edges) - 1 = -1`, whose assignment on the
empty edge list raises an unguarded `IndexError` (not a `FlowMatrixError`);
no `FlowMatrix` is ever returned. -/
theorem create_flow_matrix_empty_raises_index_error (f t : String) (v : Nat) :
    createFlowMatrix f t v [] = .error .indexError := rfl

/-! ## Supporting lemmas for the forced-terminal logic (C1, C6) -/

theorem lastIdxAux_no_match (r : String) (l : List TransferStep)
    (h : ∀ s ∈ l, pyLower s.to_address ≠ r) :
    ∀ (i : Nat) (acc : Int), lastIdxAux r i acc l = acc := by
  induction l with
  | nil => intro i acc; rfl
  | cons s l ih =>
    intro i acc
    have hs : pyLower s.to_address ≠ r := h s (List.mem_cons_self _ _)
    simp only [lastIdxAux, if_neg hs]
    exact ih (fun x hx => h x (List.mem_cons_of_mem _ hx)) (i + 1) acc

theorem lastIdxAux_cases (r : String) (l : List TransferStep) :
    ∀ (i : Nat) (acc : Int), lastIdxAux r i acc l = acc ∨
      ∃ j : Nat, lastIdxAux r i acc l = (j : Int) ∧ i ≤ j ∧ j < i + l.length := by
  induction l with
  | nil => intro i acc; exact Or.inl rfl
  | cons s l ih =>
    intro i acc
    simp only [lastIdxAux]
    by_cases hs : pyLower s.to_address = r
    · rw [if_pos hs]
      rcases ih (i + 1) (i : Int) with h | ⟨j, hj, hij, hjl⟩
      · right
        exact ⟨i, h, le_refl i, by simp only [List.length_cons]; omega⟩
      · right
        exact ⟨j, hj, by omega, by simp only [List.length_cons]; omega⟩
    · rw [if_neg hs]
      rcases ih (i + 1) acc with h | ⟨j, hj, hij, hjl⟩
      · exact Or.inl h
      · right
        exact ⟨j, hj, by omega, by simp only [List.length_cons]; omega⟩

theorem lastToReceiverIdx_cases (r : String) (ts : List TransferStep) :
    lastToReceiverIdx r ts = -1 ∨
      ∃ j : Nat, lastToReceiverIdx r ts = (j : Int) ∧ j < ts.length := by
  rcases lastIdxAux_cases r ts 0 (-1) with h | ⟨j, hj, _, hjl⟩
  · exact Or.inl h
  · exact Or.inr ⟨j, hj, by omega⟩

theorem pyModIdx_nat (l : List FlowEdge) (j : Nat) (hj : j < l.length)
    (g : FlowEdge → FlowEdge) :
    pyModIdx l (j : Int) g = some (modifyIdx g j l) := by
  have hjneg : ¬ ((j : Int) < 0) := by omega
  simp only [pyModIdx, if_neg hjneg]
  rw [if_pos ⟨by omega, by exact_mod_cast hj⟩]
  simp

theorem forceTerminal_some (receiver : String) (ts : List TransferStep)
    (edges : List FlowEdge) (hlen : edges.length = ts.length)
    (hne : edges ≠ []) :
    ∃ es, forceTerminal receiver ts edges = some es := by
  simp only [forceTerminal]
  by_cases hany : edges.any (fun e => e.stream_sink_id == 1)
  · exact ⟨edges, by rw [if_pos hany]⟩
  · rw [if_neg hany]
    have hpos : 0 < edges.length := List.length_pos.mpr hne
    rcases lastToReceiverIdx_cases receiver ts with hL | ⟨j, hL, hjl⟩
    · rw [hL]
      rw [if_neg (by simp)]
      have h1 : ((edges.length : Int) - 1) = ((edges.length - 1 : Nat) : Int) := by omega
      rw [h1, pyModIdx_nat edges (edges.length - 1) (by omega) _]
      exact ⟨_, rfl⟩
    · rw [hL]
      rw [if_pos (by omega)]
      rw [pyModIdx_nat edges j (by omega) _]
      exact ⟨_, rfl⟩

/-! ## C1: the terminal-sum gate of `create_flow_matrix` -/

/-- C1, amended: for every successful `create_flow_matrix` call the sum of
`amount` over edges with `stream_sink_id = 1` equals the caller-supplied
expected total; whenever that sum differs, the call fails with a builtin
`ValueError` (not the SDK's `FlowMatrixError`) reporting both values, and no
FlowMatrix is returned. -/
theorem create_flow_matrix_terminal_sum_gate (f t : String) (v : Nat)
    (ts : List TransferStep) (hne : ts ≠ []) :
    (∀ M, createFlowMatrix f t v ts = .ok M → terminalSum M.flow_edges = v) ∧
    (∀ e, createFlowMatrix f t v ts = .error e →
      ∃ s, s ≠ v ∧
        e = .valueError (s!"Terminal sum {s} does not equal expected {v}")) := by
  have hlen : (mkFlowEdges (pyLower t) ts).length = ts.length := List.length_map _ _
  have hene : mkFlowEdges (pyLower t) ts ≠ [] := by
    intro h0
    exact hne (List.map_eq_nil_iff.mp h0)
  obtain ⟨es, hes⟩ := forceTerminal_some (pyLower t) ts _ hlen hene
  constructor
  · intro M hM
    simp only [createFlowMatrix, hes] at hM
    split at hM
    · exact absurd hM (by simp)
    · next hcond =>
      injection hM with h1
      rw [← h1]
      exact not_not.mp hcond
  · intro e he
    simp only [createFlowMatrix, hes] at he
    split at he
    · next hcond =>
      injection he with h1
      exact ⟨terminalSum es, hcond, h1.symm⟩
    · exact absurd he (by simp)

/-- Witness for C1 (amended) at a concrete mismatching input. -/
theorem create_flow_matrix_terminal_sum_gate_witness :
    ∃ s, s ≠ 7 ∧
      (PyExn.valueError "Terminal sum 5 does not equal expected 7") =
        .valueError (s!"Terminal sum {s} does not equal expected {7}") :=
  (create_flow_matrix_terminal_sum_gate "0xa" "0xb" 7 [⟨"0xa", "0xb", "0xa", 5⟩]
    (by decide)).2 _ rfl

/-- C1, counterexample to the claim as stated: a mismatching total fails with
the builtin `ValueError`, not with `FlowMatrixError` as claimed. -/
theorem create_flow_matrix_error_class_counterexample :
    createFlowMatrix "0xa" "0xb" 7 [⟨"0xa", "0xb", "0xa", 5⟩] =
      .error (.valueError "Terminal sum 5 does not equal expected 7") ∧
    (match createFlowMatrix "0xa" "0xb" 7 [⟨"0xa", "0xb", "0xa", 5⟩] with
      | .error (.flowMatrixError _) => False
      | _ => True) :=
  ⟨rfl, trivial⟩

/-! ## C6: the forced-terminal fallback -/

theorem modifyIdx_last_eq {α : Type} (g : α → α) (l : List α) (hne : l ≠ []) :
    modifyIdx g (l.length - 1) l = l.dropLast ++ [g (l.getLast hne)] := by
  induction l with
  | nil => exact absurd rfl hne
  | cons a l ih =>
    cases l with
    | nil => rfl
    | cons b l2 =>
      have hne2 : b :: l2 ≠ [] := by simp
      have hidx : (a :: b :: l2).length - 1 = ((b :: l2).length - 1) + 1 := by
        simp only [List.length_cons]
        omega
      rw [hidx]
      show a :: modifyIdx g ((b :: l2).length - 1) (b :: l2) = _
      rw [ih hne2, List.dropLast_cons₂, List.getLast_cons hne2]
      rfl

theorem mkFlowEdges_sid_zero (receiver : String) (ts : List TransferStep)
    (hnot : ∀ s ∈ ts, pyLower s.to_address ≠ receiver) :
    ∀ e ∈ mkFlowEdges receiver ts, e.stream_sink_id = 0 := by
  intro e he
  simp only [mkFlowEdges, List.mem_map] at he
  obtain ⟨s, hs, rfl⟩ := he
  simp [if_neg (hnot s hs)]

/-- C6: when the step list is non-empty and no step's `to` equals the overall
destination, `create_flow_matrix` forces exactly one terminal edge — the last
edge in the list (the preferred last-step-to-destination branch being vacuous
here) — that edge carries the last step's amount, the terminal sum is
computed over exactly that forced edge, and the call succeeds precisely when
that amount equals the expected total. -/
theorem create_flow_matrix_forced_terminal (f t : String) (v : Nat)
    (ts : List TransferStep) (hne : ts ≠ [])
    (hnot : ∀ s ∈ ts, pyLower s.to_address ≠ pyLower t) :
    ∃ tl edges,
      ts.getLast? = some tl ∧
      forceTerminal (pyLower t) ts (mkFlowEdges (pyLower t) ts) = some edges ∧
      edges.countP (fun e => e.stream_sink_id == 1) = 1 ∧
      edges.getLast? = some ⟨1, tl.value⟩ ∧
      terminalSum edges = tl.value ∧
      (∀ M, createFlowMatrix f t v ts = .ok M → M.flow_edges = edges) ∧
      ((∃ M, createFlowMatrix f t v ts = .ok M) ↔ tl.value = v) := by
  set receiver := pyLower t with hrecv
  set edges0 := mkFlowEdges receiver ts with hedges0
  have hene : edges0 ≠ [] := by
    intro h0
    exact hne (List.map_eq_nil_iff.mp h0)
  have hzero : ∀ e ∈ edges0, e.stream_sink_id = 0 := mkFlowEdges_sid_zero receiver ts hnot
  -- the last step and the last pre-force edge
  set tl := ts.getLast hne with htl
  have htl? : ts.getLast? = some tl := List.getLast?_eq_getLast ts hne
  have hlast0 : edges0.getLast hene = ⟨0, tl.value⟩ := by
    have h1 : edges0.getLast? = some ⟨0, tl.value⟩ := by
      rw [hedges0, mkFlowEdges, List.getLast?_map, htl?, Option.map_some']
      rw [if_neg (hnot tl (List.getLast_mem hne))]
    have h2 : edges0.getLast? = some (edges0.getLast hene) :=
      List.getLast?_eq_getLast edges0 hene
    rw [h1] at h2
    injection h2 with h3
    exact h3.symm
  -- no edge is terminal before forcing
  have hany : edges0.any (fun e => e.stream_sink_id == 1) = false := by
    rw [List.any_eq_false]
    intro e he
    simp [hzero e he]
  -- the `enumerate` loop finds no step into the receiver
  have hlidx : lastToReceiverIdx receiver ts = -1 :=
    lastIdxAux_no_match receiver ts hnot 0 (-1)
  -- hence forcing rewrites the last edge
  have hforce : forceTerminal receiver ts edges0 =
      some (edges0.dropLast ++ [⟨1, tl.value⟩]) := by
    rw [forceTerminal, if_neg (by rw [hany]; exact Bool.false_ne_true)]
    dsimp only
    rw [hlidx]
    rw [if_neg (by simp)]
    have hlen1 : ((edges0.length : Int) - 1) = ((edges0.length - 1 : Nat) : Int) := by
      have : 0 < edges0.length := List.length_pos.mpr hene
      omega
    rw [hlen1, pyModIdx_nat edges0 (edges0.length - 1)
      (by have : 0 < edges0.length := List.length_pos.mpr hene; omega) _]
    rw [modifyIdx_last_eq _ edges0 hene, hlast0]
  set edges := edges0.dropLast ++ [(⟨1, tl.value⟩ : FlowEdge)] with hedges
  have hdrop : ∀ e ∈ edges0.dropLast, e.stream_sink_id = 0 :=
    fun e he => hzero e ((List.dropLast_sublist edges0).mem he)
  have hcount : edges.countP (fun e => e.stream_sink_id == 1) = 1 := by
    rw [hedges, List.countP_append]
    have h0 : edges0.dropLast.countP (fun e => e.stream_sink_id == 1) = 0 := by
      rw [List.countP_eq_zero]
      intro e he
      simp [hdrop e he]
    rw [h0]
    rfl
  have hsum : terminalSum edges = tl.value := by
    rw [hedges, terminalSum, List.filter_append]
    have h0 : edges0.dropLast.filter (fun e => e.stream_sink_id == 1) = [] := by
      rw [List.filter_eq_nil_iff]
      intro e he
      simp [hdrop e he]
    rw [h0]
    rfl
  refine ⟨tl, edges, htl?, hforce, hcount, ?_, hsum, ?_, ?_⟩
  · rw [hedges, List.getLast?_concat]
  · intro M hM
    simp only [createFlowMatrix, ← hrecv, hforce] at hM
    split at hM
    · exact absurd hM (by simp)
    · injection hM with h1
      rw [← h1]
  · constructor
    · rintro ⟨M, hM⟩
      simp only [createFlowMatrix, ← hrecv, hforce] at hM
      split at hM
      · exact absurd hM (by simp)
      · next hcond => rw [← hsum]; exact not_not.mp hcond
    · intro hv
      cases hres : createFlowMatrix f t v ts with
      | ok M => exact ⟨M, rfl⟩
      | error e =>
        simp only [createFlowMatrix, ← hrecv, hforce] at hres
        rw [if_neg (not_not.mpr (hsum.trans hv))] at hres
        exact absurd hres (by simp)

/-- Witness for C6 at a concrete path whose steps never hit the destination
`0xd` directly. -/
theorem create_flow_matrix_forced_terminal_witness :
    ∃ tl edges,
      ([⟨"0xa", "0xb", "0xa", 9⟩, ⟨"0xb", "0xc", "0xb", 5⟩] :
        List TransferStep).getLast? = some tl ∧
      forceTerminal (pyLower "0xd") [⟨"0xa", "0xb", "0xa", 9⟩, ⟨"0xb", "0xc", "0xb", 5⟩]
        (mkFlowEdges (pyLower "0xd") [⟨"0xa", "0xb", "0xa", 9⟩, ⟨"0xb", "0xc", "0xb", 5⟩]) =
        some edges ∧
      edges.countP (fun e => e.stream_sink_id == 1) = 1 ∧
      edges.getLast? = some ⟨1, tl.value⟩ ∧
      terminalSum edges = tl.value ∧
      (∀ M, createFlowMatrix "0xa" "0xd" 5 [⟨"0xa", "0xb", "0xa", 9⟩, ⟨"0xb", "0xc", "0xb", 5⟩] =
        .ok M → M.flow_edges = edges) ∧
      ((∃ M, createFlowMatrix "0xa" "0xd" 5
        [⟨"0xa", "0xb", "0xa", 9⟩, ⟨"0xb", "0xc", "0xb", 5⟩] = .ok M) ↔ tl.value = 5) :=
  create_flow_matrix_forced_terminal "0xa" "0xd" 5
    [⟨"0xa", "0xb", "0xa", 9⟩, ⟨"0xb", "0xc", "0xb", 5⟩] (by decide) (by decide)

/-! ## C8: rewriting a wrapper-free path is the identity -/

theorem getWrappedTokenTotalsFromPath_eq_nil
    (tokenInfoMap : List (String × TokenInfoRow)) :
    ∀ (l : List TransferStep) (mf : Nat),
      (∀ t ∈ l, ∀ info, alGet tokenInfoMap (pyLower t.token_owner) = some info →
        info.is_wrapped = false) →
      getWrappedTokenTotalsFromPath ⟨mf, l⟩ tokenInfoMap = [] := by
  intro l
  induction l with
  | nil => intro mf hl; rfl
  | cons t l ih =>
    intro mf hl
    have ihl := ih mf (fun s hs => hl s (List.mem_cons_of_mem _ hs))
    simp only [getWrappedTokenTotalsFromPath] at ihl ⊢
    simp only [List.foldl_cons]
    cases halg : alGet tokenInfoMap (pyLower t.token_owner) with
    | none => exact ihl
    | some info =>
      have hw := hl t (List.mem_cons_self _ _) info halg
      change List.foldl _ (if info.is_wrapped = true then _ else []) l = []
      rw [hw]
      exact ihl

theorem replaceWrappedTokens_nil (path : PathfindingResult) :
    replaceWrappedTokens path [] = path := by
  cases path with
  | mk mf trs =>
    simp only [replaceWrappedTokens]
    congr 1
    induction trs with
    | nil => rfl
    | cons t l ih =>
      rw [List.map_cons, ih]
      rfl

/-- C8: a path in which no `token_owner` is classified as a wrapper is
returned by `process_path_for_wrapped_tokens` unchanged (same addresses,
values, order and `max_flow`), and `had_inflationary_wrapper` is `false`. -/
theorem process_path_wrapper_free_identity
    (tokenInfoMap : List (String × TokenInfoRow)) (path : PathfindingResult)
    (h : ∀ t ∈ path.transfers, ∀ info,
      alGet tokenInfoMap (pyLower t.token_owner) = some info →
        info.is_wrapped = false) :
    processPathForWrappedTokens tokenInfoMap path = (path, false) := by
  have hw : getWrappedTokenTotalsFromPath path tokenInfoMap = [] := by
    cases path with
    | mk mf trs => exact getWrappedTokenTotalsFromPath_eq_nil tokenInfoMap trs mf h
  simp only [processPathForWrappedTokens, hw]
  rw [show getExpectedUnwrappedTokenTotals [] tokenInfoMap = [] from rfl]
  rw [replaceWrappedTokens_nil]
  rfl

/-- Witness for C8 at a concrete wrapper-free path: the token-info map
classifies the only token as a native `CrcV2_RegisterHuman`. -/
theorem process_path_wrapper_free_identity_witness :
    processPathForWrappedTokens
      [("0xa", ⟨0, "0xh", 2, "CrcV2_RegisterHuman", "0xa", "0xa"⟩)]
      ⟨7, [⟨"0xa", "0xb", "0xa", 5⟩]⟩ =
      (⟨7, [⟨"0xa", "0xb", "0xa", 5⟩]⟩, false) :=
  process_path_wrapper_free_identity _ _ (by
    intro t ht info hinfo
    simp only [List.mem_singleton] at ht
    subst ht
    have : info = ⟨0, "0xh", 2, "CrcV2_RegisterHuman", "0xa", "0xa"⟩ := by
      have h1 : alGet [("0xa", (⟨0, "0xh", 2, "CrcV2_RegisterHuman", "0xa", "0xa"⟩ :
          TokenInfoRow))] (pyLower "0xa") =
          some ⟨0, "0xh", 2, "CrcV2_RegisterHuman", "0xa", "0xa"⟩ := rfl
      rw [h1] at hinfo
      injection hinfo with h2
      exact h2.symm
    subst this
    decide)

/-! ## C7: validation in the `transitive_transfer` prelude

`target_flow` is produced as `str(amount)`, so its `int(v)` validation always
succeeds; the next lemmas prove that `toString` of an integer is accepted by
`isIntString`. -/

theorem digitChar_isDigit (d : Nat) (hd : d < 10) :
    (Nat.digitChar d).isDigit = true := by
  interval_cases d <;> decide

theorem toDigitsCore_all_digits (fuel : Nat) :
    ∀ (n : Nat) (ds : List Char), (∀ c ∈ ds, c.isDigit = true) →
      ∀ c ∈ Nat.toDigitsCore 10 fuel n ds, c.isDigit = true := by
  induction fuel with
  | zero => intro n ds hds; exact hds
  | succ fuel ih =>
    intro n ds hds c hc
    simp only [Nat.toDigitsCore] at hc
    have hhead : ∀ c' ∈ (Nat.digitChar (n % 10) :: ds), c'.isDigit = true := by
      intro c' hc'
      rcases List.mem_cons.mp hc' with rfl | hmem
      · exact digitChar_isDigit _ (Nat.mod_lt _ (by omega))
      · exact hds c' hmem
    split at hc
    · exact hhead c hc
    · exact ih _ _ hhead c hc

theorem toDigitsCore_ne_nil (fuel : Nat) :
    ∀ (n : Nat) (ds : List Char), fuel ≠ 0 ∨ ds ≠ [] →
      Nat.toDigitsCore 10 fuel n ds ≠ [] := by
  induction fuel with
  | zero =>
    intro n ds h
    exact h.elim (fun h0 => absurd rfl h0) id
  | succ fuel ih =>
    intro n ds _
    simp only [Nat.toDigitsCore]
    split
    · simp
    · exact ih _ _ (Or.inr (by simp))

theorem natRepr_all_digits (n : Nat) : ∀ c ∈ (Nat.repr n).data, c.isDigit = true :=
  toDigitsCore_all_digits (n + 1) n [] (by intro c hc; cases hc)

theorem natRepr_ne_nil (n : Nat) : (Nat.repr n).data ≠ [] :=
  toDigitsCore_ne_nil (n + 1) n [] (Or.inl (by omega))

theorem isIntString_natRepr (n : Nat) : isIntString (Nat.repr n) = true := by
  unfold isIntString
  cases hd : (Nat.repr n).data with
  | nil => exact absurd hd (natRepr_ne_nil n)
  | cons c l =>
    have hcd : c.isDigit = true :=
      natRepr_all_digits n c (by rw [hd]; exact List.mem_cons_self c l)
    have hne : c ≠ '-' := by
      intro h
      rw [h] at hcd
      exact absurd hcd (by decide)
    show (if c = '-' then !l.isEmpty && l.all (fun x => x.isDigit)
      else (c :: l).all (fun x => x.isDigit)) = true
    rw [if_neg hne, List.all_eq_true]
    intro x hx
    exact natRepr_all_digits n x (by rw [hd]; exact hx)

theorem isIntString_toString_int (i : Int) : isIntString (toString i) = true := by
  cases i with
  | ofNat m => exact isIntString_natRepr m
  | negSucc m =>
    show isIntString ("-" ++ Nat.repr (m + 1)) = true
    have hdata : ("-" ++ Nat.repr (m + 1)).data = '-' :: (Nat.repr (m + 1)).data := rfl
    unfold isIntString
    rw [hdata]
    show (!(Nat.repr (m + 1)).data.isEmpty &&
      (Nat.repr (m + 1)).data.all (fun x => x.isDigit)) = true
    have h1 : (Nat.repr (m + 1)).data.isEmpty = false := by
      cases hd : (Nat.repr (m + 1)).data with
      | nil => exact absurd hd (natRepr_ne_nil _)
      | cons c l => rfl
    have h2 : (Nat.repr (m + 1)).data.all (fun x => x.isDigit) = true := by
      rw [List.all_eq_true]
      exact fun c hc => natRepr_all_digits (m + 1) c hc
    simp [h1, h2]

theorem validateAddressField_ok (v : String)
    (h1 : strLeadsWith "0x" v = true) (h2 : v.length = 42) :
    validateAddressField v = .ok (pyLower v) := by
  rw [validateAddressField, if_neg (by simp [h1, h2])]

theorem validateAddressField_error (v : String)
    (h : ¬ (strLeadsWith "0x" v = true ∧ v.length = 42)) :
    validateAddressField v =
      .error (.pydanticValidationError s!"Invalid Ethereum address: {v}") := by
  rw [validateAddressField, if_pos (by tauto)]

theorem validateAddressField_error_shape (v : String) (e : PyExn)
    (h : validateAddressField v = .error e) :
    ∃ m, e = .pydanticValidationError m := by
  rw [validateAddressField] at h
  split at h
  · injection h with h1
    exact ⟨_, h1.symm⟩
  · exact absurd h (by simp)

/-- C7, amended: before its first external call, `transitive_transfer`
validates only address *form* (through the pydantic `FindPathParams`
validators, whose failure is pydantic's `ValidationError`); it does not
reject `from == to` and does not reject non-positive amounts — with two
well-formed addresses the pathfinder call is always reached, whatever the
amount and even when the two addresses are identical. -/
theorem transitive_transfer_prelude_validation (f t : String) (amount : Int)
    (uw : Bool) :
    (strLeadsWith "0x" (pyLower f) = true → (pyLower f).length = 42 →
     strLeadsWith "0x" (pyLower t) = true → (pyLower t).length = 42 →
      transitiveTransferPrelude f t amount uw none none none none =
        .ok ⟨pyLower (pyLower f), pyLower (pyLower t),
          toString (truncateToSixDecimals amount), uw, none, none, none, none⟩) ∧
    (¬ (strLeadsWith "0x" (pyLower f) = true ∧ (pyLower f).length = 42) ∨
     ¬ (strLeadsWith "0x" (pyLower t) = true ∧ (pyLower t).length = 42) →
      ∃ m, transitiveTransferPrelude f t amount uw none none none none =
        .error (.pydanticValidationError m)) ∧
    (∀ e, transitiveTransferPrelude f t amount uw none none none none = .error e →
      ∃ m, e = .pydanticValidationError m) := by
  have htf : validateTargetFlowField (toString (truncateToSixDecimals amount)) =
      .ok (toString (truncateToSixDecimals amount)) := by
    rw [validateTargetFlowField, if_pos (isIntString_toString_int _)]
  refine ⟨?_, ?_, ?_⟩
  · intro h1 h2 h3 h4
    simp only [transitiveTransferPrelude, mkFindPathParams,
      validateAddressField_ok _ h1 h2, validateAddressField_ok _ h3 h4, htf]
    rfl
  · intro hbad
    rcases hbad with hf | ht
    · exact ⟨s!"Invalid Ethereum address: {pyLower f}", by
        simp only [transitiveTransferPrelude, mkFindPathParams,
          validateAddressField_error _ hf]
        rfl⟩
    · cases hfok : validateAddressField (pyLower f) with
      | error e =>
        obtain ⟨m, rfl⟩ := validateAddressField_error_shape _ _ hfok
        refine ⟨m, ?_⟩
        simp only [transitiveTransferPrelude, mkFindPathParams, hfok]
        rfl
      | ok fv =>
        exact ⟨s!"Invalid Ethereum address: {pyLower t}", by
          simp only [transitiveTransferPrelude, mkFindPathParams, hfok,
            validateAddressField_error _ ht]
          rfl⟩
  · intro e he
    simp only [transitiveTransferPrelude, mkFindPathParams] at he
    cases hf : validateAddressField (pyLower f) with
    | error ef =>
      rw [hf] at he
      have h2 : (Except.error ef : Except PyExn FindPathParams) = Except.error e := he
      injection h2 with h3
      obtain ⟨m, hm⟩ := validateAddressField_error_shape _ _ hf
      exact ⟨m, h3 ▸ hm⟩
    | ok fv =>
      rw [hf] at he
      cases ht : validateAddressField (pyLower t) with
      | error et =>
        rw [ht] at he
        have h2 : (Except.error et : Except PyExn FindPathParams) = Except.error e := he
        injection h2 with h3
        obtain ⟨m, hm⟩ := validateAddressField_error_shape _ _ ht
        exact ⟨m, h3 ▸ hm⟩
      | ok tv =>
        rw [ht, htf] at he
        have h2 : (Except.ok ⟨fv, tv, toString (truncateToSixDecimals amount), uw,
            none, none, none, none⟩ : Except PyExn FindPathParams) =
            Except.error e := he
        exact absurd h2 (by simp)

/-- Witness for the amended C7: with two (identical!) well-formed addresses
and amount `0`, the prelude succeeds, so the pathfinder call is reached. -/
theorem transitive_transfer_prelude_validation_witness :
    transitiveTransferPrelude "0xAAAAAAAAAAAAAAAAAAAAAAAAAAAAAAAAAAAAAAAA"
      "0xAAAAAAAAAAAAAAAAAAAAAAAAAAAAAAAAAAAAAAAA" 0 false none none none none =
      .ok ⟨pyLower (pyLower "0xAAAAAAAAAAAAAAAAAAAAAAAAAAAAAAAAAAAAAAAA"),
        pyLower (pyLower "0xAAAAAAAAAAAAAAAAAAAAAAAAAAAAAAAAAAAAAAAA"),
        toString (truncateToSixDecimals 0), false, none, none, none, none⟩ :=
  (transitive_transfer_prelude_validation
    "0xAAAAAAAAAAAAAAAAAAAAAAAAAAAAAAAAAAAAAAAA"
    "0xAAAAAAAAAAAAAAAAAAAAAAAAAAAAAAAAAAAAAAAA" 0 false).1
    (by decide) (by decide) (by decide) (by decide)

/-- C7, counterexample to the claim as stated: identical well-formed
`from`/`to` and a non-positive amount (`0`, and likewise `-3`) produce **no**
`ValidationError` before the external call — the prelude returns the
pathfinder parameters. -/
theorem transitive_transfer_prelude_counterexample :
    transitiveTransferPrelude "0xaaaaaaaaaaaaaaaaaaaaaaaaaaaaaaaaaaaaaaaa"
      "0xaaaaaaaaaaaaaaaaaaaaaaaaaaaaaaaaaaaaaaaa" 0 false none none none none =
      .ok ⟨"0xaaaaaaaaaaaaaaaaaaaaaaaaaaaaaaaaaaaaaaaa",
        "0xaaaaaaaaaaaaaaaaaaaaaaaaaaaaaaaaaaaaaaaa", "0", false,
        none, none, none, none⟩ ∧
    transitiveTransferPrelude "0xaaaaaaaaaaaaaaaaaaaaaaaaaaaaaaaaaaaaaaaa"
      "0xaaaaaaaaaaaaaaaaaaaaaaaaaaaaaaaaaaaaaaaa" (-3) false none none none none =
      .ok ⟨"0xaaaaaaaaaaaaaaaaaaaaaaaaaaaaaaaaaaaaaaaa",
        "0xaaaaaaaaaaaaaaaaaaaaaaaaaaaaaaaaaaaaaaaa", "-3", false,
        none, none, none, none⟩ :=
  ⟨rfl, rfl⟩

/-! ## C5 and C10: `shrink_path_values` -/

theorem alGetD_alSet {β : Type} (d : List (String × β)) (k a : String)
    (v v₀ : β) :
    alGetD (alSet d k v) a v₀ = if a = k then v else alGetD d a v₀ := by
  simp only [alGetD, alGet_alSet]
  split <;> rfl

theorem shrinkLoop_scaled_map (r : Nat) :
    ∀ (ts : List TransferStep) (i : Nat) (inc : List (String × Nat))
      (sc : List IndexedTransferStep),
      ((shrinkLoop r i ts inc sc).2).map
          (fun s => (⟨s.from_address, s.to_address, s.token_owner, s.value⟩ :
            TransferStep)) =
        sc.map (fun s => ⟨s.from_address, s.to_address, s.token_owner, s.value⟩) ++
          ts.filterMap (scaleStep r) := by
  intro ts
  induction ts with
  | nil => intro i inc sc; simp [shrinkLoop]
  | cons t ts ih =>
    intro i inc sc
    simp only [shrinkLoop]
    by_cases h0 : t.value * r / 1000000000000 = 0
    · rw [if_pos h0, ih, List.filterMap_cons,
        show scaleStep r t = none from by simp [scaleStep, h0]]
    · rw [if_neg h0, ih, List.filterMap_cons,
        show scaleStep r t = some ⟨t.from_address, t.to_address, t.token_owner,
          t.value * r / 1000000000000⟩ from by simp [scaleStep, h0]]
      simp [List.append_assoc]

theorem shrinkLoop_scaled_pairwise (r : Nat) :
    ∀ (ts : List TransferStep) (i : Nat) (inc : List (String × Nat))
      (sc : List IndexedTransferStep),
      List.Pairwise (fun a b => a.idx < b.idx) sc → (∀ x ∈ sc, x.idx < i) →
      List.Pairwise (fun a b => a.idx < b.idx) (shrinkLoop r i ts inc sc).2 := by
  intro ts
  induction ts with
  | nil => intro i inc sc hp _; simpa [shrinkLoop] using hp
  | cons t ts ih =>
    intro i inc sc hp hb
    simp only [shrinkLoop]
    by_cases h0 : t.value * r / 1000000000000 = 0
    · rw [if_pos h0]
      exact ih (i + 1) inc sc hp (fun x hx => Nat.lt_succ_of_lt (hb x hx))
    · rw [if_neg h0]
      refine ih (i + 1) _ _ ?_ ?_
      · rw [List.pairwise_append]
        refine ⟨hp, List.pairwise_singleton _ _, ?_⟩
        intro a ha b hbm
        simp only [List.mem_singleton] at hbm
        subst hbm
        exact hb a ha
      · intro x hx
        rcases List.mem_append.mp hx with h | h
        · exact Nat.lt_succ_of_lt (hb x h)
        · simp only [List.mem_singleton] at h
          subst h
          exact Nat.lt_succ_self i

theorem shrinkLoop_incoming_getD (r : Nat) :
    ∀ (ts : List TransferStep) (i : Nat) (inc : List (String × Nat))
      (sc : List IndexedTransferStep) (a : String),
      alGetD (shrinkLoop r i ts inc sc).1 a 0 =
        alGetD inc a 0 +
          (((ts.filterMap (scaleStep r)).filter
            (fun s => decide (pyLower s.to_address = a))).map
              (fun s => s.value)).sum := by
  intro ts
  induction ts with
  | nil => intro i inc sc a; simp [shrinkLoop]
  | cons t ts ih =>
    intro i inc sc a
    simp only [shrinkLoop]
    by_cases h0 : t.value * r / 1000000000000 = 0
    · rw [if_pos h0, ih, List.filterMap_cons,
        show scaleStep r t = none from by simp [scaleStep, h0]]
    · rw [if_neg h0, ih, List.filterMap_cons,
        show scaleStep r t = some ⟨t.from_address, t.to_address, t.token_owner,
          t.value * r / 1000000000000⟩ from by simp [scaleStep, h0]]
      rw [alGetD_alSet]
      by_cases hta : a = pyLower t.to_address
      · rw [if_pos hta, List.filter_cons, if_pos (by simp [hta])]
        simp only [List.map_cons, List.sum_cons, hta]
        omega
      · rw [if_neg hta, List.filter_cons,
          if_neg (by simp; intro h; exact hta h.symm)]

/-- C5: with the default retention `999999999999 / 10^12`, the output steps
of `shrink_path_values` are exactly the input steps whose scaled value
`value * retain_bps / 10^12` is nonzero, each carrying that scaled value, in
the original order; consequently every surviving step's new value is at most
its old value, and is nonzero. -/
theorem shrink_path_values_transfers (p : PathfindingResult) :
    (shrinkPathValues p 999999999999).transfers =
      p.transfers.filterMap (scaleStep 999999999999) ∧
    ∀ t' ∈ (shrinkPathValues p 999999999999).transfers,
      ∃ t ∈ p.transfers, scaleStep 999999999999 t = some t' ∧
        t'.value ≤ t.value ∧ t'.value ≠ 0 := by
  have hpw := shrinkLoop_scaled_pairwise 999999999999 p.transfers 0 [] []
    List.Pairwise.nil (by intro x hx; cases hx)
  have hsorted : List.Sorted (fun a b => a.idx ≤ b.idx)
      (shrinkLoop 999999999999 0 p.transfers [] []).2 :=
    hpw.imp (fun h => Nat.le_of_lt h)
  have h1 : (shrinkPathValues p 999999999999).transfers =
      p.transfers.filterMap (scaleStep 999999999999) := by
    simp only [shrinkPathValues]
    rw [List.Sorted.insertionSort_eq hsorted]
    simpa using shrinkLoop_scaled_map 999999999999 p.transfers 0 [] []
  refine ⟨h1, ?_⟩
  intro t' ht'
  rw [h1] at ht'
  obtain ⟨t, htmem, hsc⟩ := List.mem_filterMap.mp ht'
  refine ⟨t, htmem, hsc, ?_, ?_⟩
  · rw [scaleStep] at hsc
    split at hsc
    · exact absurd hsc (by simp)
    · injection hsc with h2
      rw [← h2]
      calc t.value * 999999999999 / 1000000000000
          ≤ t.value * 1000000000000 / 1000000000000 :=
            Nat.div_le_div_right (Nat.mul_le_mul_left t.value (by norm_num))
        _ = t.value := Nat.mul_div_cancel t.value (by norm_num)
  · rw [scaleStep] at hsc
    split at hsc
    · exact absurd hsc (by simp)
    · next hcond =>
      injection hsc with h2
      rw [← h2]
      exact hcond

/-- Witness for C5 at a concrete path (one step survives scaled down by one
unit, one step is scaled to zero and dropped). -/
theorem shrink_path_values_transfers_witness :
    ∃ t ∈ (⟨1001, [⟨"0xa", "0xb", "0xa", 1000000000000⟩, ⟨"0xq", "0xr", "0xq", 1⟩]⟩ :
        PathfindingResult).transfers,
      scaleStep 999999999999 t = some ⟨"0xa", "0xb", "0xa", 999999999999⟩ ∧
      (999999999999 : Nat) ≤ t.value ∧ (999999999999 : Nat) ≠ 0 :=
  (shrink_path_values_transfers
    ⟨1001, [⟨"0xa", "0xb", "0xa", 1000000000000⟩, ⟨"0xq", "0xr", "0xq", 1⟩]⟩).2
    ⟨"0xa", "0xb", "0xa", 999999999999⟩ (by decide)

/-- C10: `shrink_path_values` (a total function — it raises nothing) picks
as sink the first receiver, in surviving-step order, that never appears as a
sender among the surviving steps; the returned `max_flow` is the total scaled
inflow of that first candidate only, and `0` when no such vertex exists. -/
theorem shrink_path_values_max_flow (p : PathfindingResult) (r : Nat) :
    (shrinkPathValues p r).max_flow =
      (match (p.transfers.filterMap (scaleStep r)).find?
          (fun t => !((p.transfers.filterMap (scaleStep r)).any
            (fun s => decide (pyLower s.from_address = pyLower t.to_address)))) with
       | some t => (((p.transfers.filterMap (scaleStep r)).filter
           (fun s => decide (pyLower s.to_address = pyLower t.to_address))).map
             (fun s => s.value)).sum
       | none => 0) := by
  have hmap := shrinkLoop_scaled_map r p.transfers 0 [] []
  rw [List.map_nil, List.nil_append] at hmap
  have hpred : ∀ x : IndexedTransferStep,
      ((fun t : TransferStep => !((((shrinkLoop r 0 p.transfers [] []).2).map
          (fun s : IndexedTransferStep =>
            (⟨s.from_address, s.to_address, s.token_owner, s.value⟩ : TransferStep))).any
          (fun s => decide (pyLower s.from_address = pyLower t.to_address)))) ∘
        (fun s : IndexedTransferStep =>
          (⟨s.from_address, s.to_address, s.token_owner, s.value⟩ : TransferStep))) x =
      (fun y : IndexedTransferStep => decide (pyLower y.to_address ∉
        (((shrinkLoop r 0 p.transfers [] []).2).map
          (fun t => pyLower t.from_address)).dedup)) x := by
    intro x
    rw [Bool.eq_iff_iff]
    constructor
    · intro hA
      rw [Function.comp_apply, Bool.not_eq_true', List.any_eq_false] at hA
      rw [decide_eq_true_eq]
      intro hmem
      rw [List.mem_dedup, List.mem_map] at hmem
      obtain ⟨y, hymem, hy⟩ := hmem
      have h2 := hA _ (List.mem_map_of_mem (fun s : IndexedTransferStep =>
        (⟨s.from_address, s.to_address, s.token_owner, s.value⟩ : TransferStep)) hymem)
      rw [decide_eq_true_eq] at h2
      exact h2 hy
    · intro hB
      rw [decide_eq_true_eq] at hB
      rw [Function.comp_apply, Bool.not_eq_true', List.any_eq_false]
      intro s hsmem
      simp only [decide_eq_true_eq]
      intro heq
      apply hB
      rw [List.mem_dedup, List.mem_map]
      rw [List.mem_map] at hsmem
      obtain ⟨y, hymem, hy⟩ := hsmem
      have hyf : y.from_address = s.from_address :=
        congrArg TransferStep.from_address hy
      exact ⟨y, hymem, by rw [hyf]; exact heq⟩
  have hfind2 : (p.transfers.filterMap (scaleStep r)).find?
      (fun t => !((p.transfers.filterMap (scaleStep r)).any
        (fun s => decide (pyLower s.from_address = pyLower t.to_address)))) =
      ((shrinkLoop r 0 p.transfers [] []).2.find?
        (fun y => decide (pyLower y.to_address ∉
          (((shrinkLoop r 0 p.transfers [] []).2).map
            (fun t => pyLower t.from_address)).dedup))).map
        (fun s : IndexedTransferStep =>
          (⟨s.from_address, s.to_address, s.token_owner, s.value⟩ : TransferStep)) := by
    conv =>
      lhs
      rw [← hmap]
    rw [List.find?_map, funext hpred]
  simp only [shrinkPathValues]
  rw [hfind2]
  cases hf : (shrinkLoop r 0 p.transfers [] []).2.find?
      (fun y => decide (pyLower y.to_address ∉
        (((shrinkLoop r 0 p.transfers [] []).2).map
          (fun t => pyLower t.from_address)).dedup)) with
  | none => rfl
  | some x =>
    simp only [Option.map_some']
    have hinc := shrinkLoop_incoming_getD r p.transfers 0 [] [] (pyLower x.to_address)
    rw [show alGetD ([] : List (String × Nat)) (pyLower x.to_address) 0 = 0 from rfl,
      Nat.zero_add] at hinc
    exact hinc

/-! ## C2: the conservation check -/

theorem alGetD_double_update (d : List (String × Int)) (F T a : String) (v : Int) :
    alGetD (alSet (alSet d F (alGetD d F 0 - v)) T
      (alGetD (alSet d F (alGetD d F 0 - v)) T 0 + v)) a 0 =
    alGetD d a 0 + ((if T = a then v else 0) - (if F = a then v else 0)) := by
  rw [alGetD_alSet]
  by_cases haT : a = T
  · subst haT
    rw [if_pos rfl, alGetD_alSet, if_pos rfl]
    by_cases haF : a = F
    · subst haF
      rw [if_pos rfl, if_pos rfl]
      omega
    · rw [if_neg haF, if_neg (fun h : F = a => haF h.symm)]
      omega
  · rw [if_neg haT, alGetD_alSet, if_neg (fun h : T = a => haT h.symm)]
    by_cases haF : a = F
    · subst haF
      rw [if_pos rfl, if_pos rfl]
      omega
    · rw [if_neg haF, if_neg (fun h : F = a => haF h.symm)]
      omega

theorem nettedFlowLoop_getD :
    ∀ (l : List TransferStep) (d : List (String × Int)) (a : String),
      alGetD (nettedFlowLoop l d) a 0 = alGetD d a 0 + (l.map (stepNet a)).sum := by
  intro l
  induction l with
  | nil => intro d a; simp [nettedFlowLoop]
  | cons t ts ih =>
    intro d a
    simp only [nettedFlowLoop]
    rw [ih, alGetD_double_update, List.map_cons, List.sum_cons]
    simp only [stepNet]
    ring

theorem nettedFlowLoop_keys :
    ∀ (l : List TransferStep) (d : List (String × Int)) (a : String),
      a ∈ (nettedFlowLoop l d).map Prod.fst ↔
        a ∈ d.map Prod.fst ∨
          ∃ t ∈ l, pyLower t.from_address = a ∨ pyLower t.to_address = a := by
  intro l
  induction l with
  | nil => intro d a; simp [nettedFlowLoop]
  | cons t ts ih =>
    intro d a
    simp only [nettedFlowLoop]
    rw [ih, keys_alSet, keys_alSet]
    constructor
    · rintro ((h | h | h) | ⟨u, hu, hor⟩)
      · exact Or.inr ⟨t, List.mem_cons_self _ _, Or.inr h.symm⟩
      · exact Or.inr ⟨t, List.mem_cons_self _ _, Or.inl h.symm⟩
      · exact Or.inl h
      · exact Or.inr ⟨u, List.mem_cons_of_mem _ hu, hor⟩
    · rintro (h | ⟨u, hu, hor⟩)
      · exact Or.inl (Or.inr (Or.inr h))
      · rcases List.mem_cons.mp hu with rfl | hu2
        · rcases hor with h | h
          · exact Or.inl (Or.inr (Or.inl h.symm))
          · exact Or.inl (Or.inl h.symm)
        · exact Or.inr ⟨u, hu2, hor⟩

theorem nettedFlowLoop_nodupKeys :
    ∀ (l : List TransferStep) (d : List (String × Int)),
      (d.map Prod.fst).Nodup → ((nettedFlowLoop l d).map Prod.fst).Nodup := by
  intro l
  induction l with
  | nil => intro d h; simpa [nettedFlowLoop] using h
  | cons t ts ih =>
    intro d h
    simp only [nettedFlowLoop]
    exact ih _ (nodupKeys_alSet _ _ _ (nodupKeys_alSet _ _ _ h))

theorem computeNettedFlow_entry (p : PathfindingResult) (e : String × Int)
    (he : e ∈ computeNettedFlow p) : e.2 = netFlowOf p e.1 := by
  have hnodup := nettedFlowLoop_nodupKeys p.transfers [] (by simp)
  have halget : alGet (computeNettedFlow p) e.1 = some e.2 :=
    (mem_iff_alGet _ _ _ hnodup).mp he
  have hgetd : alGetD (computeNettedFlow p) e.1 0 = e.2 := by
    rw [alGetD, halget]
    rfl
  have hN1 := nettedFlowLoop_getD p.transfers [] e.1
  rw [show nettedFlowLoop p.transfers [] = computeNettedFlow p from rfl, hgetd] at hN1
  rw [hN1]
  show (0 : Int) + _ = netFlowOf p e.1
  rw [netFlowOf]
  omega

theorem computeNettedFlow_mem_fst (p : PathfindingResult) (a : String) :
    a ∈ (computeNettedFlow p).map Prod.fst ↔ sends p a ∨ receives p a := by
  rw [computeNettedFlow, nettedFlowLoop_keys]
  simp only [List.map_nil, List.not_mem_nil, false_or]
  constructor
  · rintro ⟨t, ht, h | h⟩
    · exact Or.inl ⟨t, ht, h⟩
    · exact Or.inr ⟨t, ht, h⟩
  · rintro (⟨t, ht, h⟩ | ⟨t, ht, h⟩)
    · exact ⟨t, ht, Or.inl h⟩
    · exact ⟨t, ht, Or.inr h⟩

theorem checkNetFlowEntries_ok_iff (source sink : String) :
    ∀ l : List (String × Int), checkNetFlowEntries source sink l = .ok () ↔
      ∀ e ∈ l, ¬(e.1 = source ∧ e.2 ≥ 0) ∧ ¬(e.1 = sink ∧ e.2 ≤ 0) ∧
        ¬(e.1 ≠ source ∧ e.1 ≠ sink ∧ e.2 ≠ 0) := by
  intro l
  induction l with
  | nil => simp [checkNetFlowEntries]
  | cons e l ih =>
    obtain ⟨addr, bal⟩ := e
    simp only [checkNetFlowEntries]
    split_ifs with h1 h2 h3
    · constructor
      · intro h; exact absurd h (by simp)
      · intro hall; exact absurd h1 (hall (addr, bal) (List.mem_cons_self _ _)).1
    · constructor
      · intro h; exact absurd h (by simp)
      · intro hall; exact absurd h2 (hall (addr, bal) (List.mem_cons_self _ _)).2.1
    · constructor
      · intro h; exact absurd h (by simp)
      · intro hall; exact absurd h3 (hall (addr, bal) (List.mem_cons_self _ _)).2.2
    · rw [ih]
      constructor
      · intro hall e2 he2
        rcases List.mem_cons.mp he2 with rfl | hmem
        · exact ⟨h1, h2, h3⟩
        · exact hall e2 hmem
      · intro hall e2 he2
        exact hall e2 (List.mem_cons_of_mem _ he2)

theorem checkNetFlowEntries_error_shape (source sink : String) :
    ∀ (l : List (String × Int)) (e : PyExn),
      checkNetFlowEntries source sink l = .error e →
        ∃ m, e = .pathfindingError m := by
  intro l
  induction l with
  | nil =>
    intro e h
    exact absurd h (by simp [checkNetFlowEntries])
  | cons hd l ih =>
    intro e h
    obtain ⟨addr, bal⟩ := hd
    simp only [checkNetFlowEntries] at h
    split_ifs at h
    · injection h with h1; exact ⟨_, h1.symm⟩
    · injection h with h1; exact ⟨_, h1.symm⟩
    · injection h with h1; exact ⟨_, h1.symm⟩
    · exact ih e h

theorem list_nodup_all_eq {l : List String} {s : String} (hn : l.Nodup)
    (hs : s ∈ l) (hall : ∀ x ∈ l, x = s) : l = [s] := by
  cases l with
  | nil => cases hs
  | cons a t =>
    have ha : a = s := hall a (List.mem_cons_self _ _)
    subst ha
    cases t with
    | nil => rfl
    | cons b t2 =>
      have hb : b = a := hall b (by simp)
      rw [List.nodup_cons] at hn
      have hmem : a ∈ b :: t2 := by
        rw [hb] at *
        exact List.mem_cons_self _ _
      exact absurd hmem hn.1

theorem getSourceAndSink_ok_iff (p : PathfindingResult) (s k : String) :
    getSourceAndSink p = .ok (s, k) ↔ uniqueSource p s ∧ uniqueSink p k := by
  simp only [getSourceAndSink]
  have hmemsrc : ∀ x,
      x ∈ ((p.transfers.map fun t => pyLower t.from_address).dedup).filter
        (fun a => decide (a ∉ (p.transfers.map fun t => pyLower t.to_address).dedup)) ↔
      sends p x ∧ ¬ receives p x := by
    intro x
    rw [List.mem_filter, List.mem_dedup, decide_eq_true_eq, List.mem_dedup,
      List.mem_map, List.mem_map]
    exact Iff.rfl
  have hmemsnk : ∀ x,
      x ∈ ((p.transfers.map fun t => pyLower t.to_address).dedup).filter
        (fun a => decide (a ∉ (p.transfers.map fun t => pyLower t.from_address).dedup)) ↔
      receives p x ∧ ¬ sends p x := by
    intro x
    rw [List.mem_filter, List.mem_dedup, decide_eq_true_eq, List.mem_dedup,
      List.mem_map, List.mem_map]
    exact Iff.rfl
  have hndsrc : (((p.transfers.map fun t => pyLower t.from_address).dedup).filter
      (fun a => decide (a ∉ (p.transfers.map fun t => pyLower t.to_address).dedup))).Nodup :=
    List.Nodup.filter _ (List.nodup_dedup _)
  have hndsnk : (((p.transfers.map fun t => pyLower t.to_address).dedup).filter
      (fun a => decide (a ∉ (p.transfers.map fun t => pyLower t.from_address).dedup))).Nodup :=
    List.Nodup.filter _ (List.nodup_dedup _)
  split_ifs with hc
  · constructor
    · intro h; exact absurd h (by simp)
    · rintro ⟨hus, huk⟩
      exfalso
      have hs1 := list_nodup_all_eq hndsrc ((hmemsrc s).mpr hus.1)
        (fun x hx => hus.2 x ((hmemsrc x).mp hx))
      have hk1 := list_nodup_all_eq hndsnk ((hmemsnk k).mpr huk.1)
        (fun x hx => huk.2 x ((hmemsnk x).mp hx))
      rcases hc with h | h
      · exact h (by rw [hs1]; rfl)
      · exact h (by rw [hk1]; rfl)
  · push_neg at hc
    obtain ⟨a, ha⟩ := List.length_eq_one.mp hc.1
    obtain ⟨b, hb⟩ := List.length_eq_one.mp hc.2
    rw [ha, hb]
    simp only [List.headD]
    constructor
    · intro h
      injection h with h1
      have h2 : a = s ∧ b = k := Prod.mk.injEq .. ▸ Prod.mk.inj h1
      obtain ⟨rfl, rfl⟩ := h2
      have hamem : a ∈ [a] := List.mem_singleton_self a
      rw [← ha] at hamem
      have hbmem : b ∈ [b] := List.mem_singleton_self b
      rw [← hb] at hbmem
      refine ⟨⟨(hmemsrc a).mp hamem, ?_⟩, ⟨(hmemsnk b).mp hbmem, ?_⟩⟩
      · intro x hx
        have : x ∈ [a] := ha ▸ (hmemsrc x).mpr hx
        exact List.mem_singleton.mp this
      · intro x hx
        have : x ∈ [b] := hb ▸ (hmemsnk x).mpr hx
        exact List.mem_singleton.mp this
    · rintro ⟨hus, huk⟩
      have hs1 := list_nodup_all_eq hndsrc ((hmemsrc s).mpr hus.1)
        (fun x hx => hus.2 x ((hmemsrc x).mp hx))
      have hk1 := list_nodup_all_eq hndsnk ((hmemsnk k).mpr huk.1)
        (fun x hx => huk.2 x ((hmemsnk x).mp hx))
      rw [ha] at hs1
      rw [hb] at hk1
      injection hs1 with h1 _
      injection hk1 with h2 _
      rw [h1, h2]

/-- C2: `assert_no_netted_flow_mismatch` succeeds exactly when there is a
unique vertex that sends but never receives (the source) and a unique vertex
that receives but never sends (the sink), the source's net flow is strictly
negative, the sink's strictly positive, and every other vertex nets to
exactly zero; every violation — including zero or several source/sink
candidates — raises `PathfindingError`. -/
theorem assert_no_netted_flow_mismatch_iff (p : PathfindingResult) :
    (assertNoNettedFlowMismatch p = .ok () ↔ conservationOk p) ∧
    (∀ e, assertNoNettedFlowMismatch p = .error e →
      ∃ m, e = .pathfindingError m) := by
  constructor
  · constructor
    · intro hok
      cases hss : getSourceAndSink p with
      | error e =>
        rw [assertNoNettedFlowMismatch, hss] at hok
        have h2 : (Except.error e : Except PyExn Unit) = .ok () := hok
        exact absurd h2 (by simp)
      | ok sk =>
        obtain ⟨s, k⟩ := sk
        rw [assertNoNettedFlowMismatch, hss] at hok
        have hck : checkNetFlowEntries s k (computeNettedFlow p) = .ok () := hok
        obtain ⟨hus, huk⟩ := (getSourceAndSink_ok_iff p s k).mp hss
        rw [checkNetFlowEntries_ok_iff] at hck
        refine ⟨s, k, hus, huk, ?_, ?_, ?_⟩
        · -- the source's entry is strictly negative
          have hsmem : s ∈ (computeNettedFlow p).map Prod.fst :=
            (computeNettedFlow_mem_fst p s).mpr (Or.inl hus.1.1)
          obtain ⟨e, hemem, hefst⟩ := List.mem_map.mp hsmem
          have hval := computeNettedFlow_entry p e hemem
          have hcond := (hck e hemem).1
          rw [hefst] at hcond
          rw [hefst] at hval
          have : ¬ (e.2 ≥ 0) := fun hge => hcond ⟨rfl, hge⟩
          omega
        · -- the sink's entry is strictly positive
          have hkmem : k ∈ (computeNettedFlow p).map Prod.fst :=
            (computeNettedFlow_mem_fst p k).mpr (Or.inr huk.1.1)
          obtain ⟨e, hemem, hefst⟩ := List.mem_map.mp hkmem
          have hval := computeNettedFlow_entry p e hemem
          have hcond := (hck e hemem).2.1
          rw [hefst] at hcond
          rw [hefst] at hval
          have : ¬ (e.2 ≤ 0) := fun hle => hcond ⟨rfl, hle⟩
          omega
        · -- every other vertex nets to zero
          intro a hsr has hak
          have hamem : a ∈ (computeNettedFlow p).map Prod.fst :=
            (computeNettedFlow_mem_fst p a).mpr hsr
          obtain ⟨e, hemem, hefst⟩ := List.mem_map.mp hamem
          have hval := computeNettedFlow_entry p e hemem
          have hcond := (hck e hemem).2.2
          rw [hefst] at hcond
          rw [hefst] at hval
          have : ¬ (e.2 ≠ 0) := fun hne => hcond ⟨has, hak, hne⟩
          omega
    · rintro ⟨s, k, hus, huk, hns, hnk, hzero⟩
      rw [assertNoNettedFlowMismatch, (getSourceAndSink_ok_iff p s k).mpr ⟨hus, huk⟩]
      show checkNetFlowEntries s k (computeNettedFlow p) = .ok ()
      rw [checkNetFlowEntries_ok_iff]
      intro e hemem
      have hval := computeNettedFlow_entry p e hemem
      have hsr := (computeNettedFlow_mem_fst p e.1).mp
        (List.mem_map_of_mem _ hemem)
      by_cases hes : e.1 = s
      · rw [hes] at hval
        have hlt : e.2 < 0 := hval ▸ hns
        have hsk : s ≠ k := fun h => hus.1.2 (h ▸ huk.1.1)
        refine ⟨?_, ?_, ?_⟩
        · rintro ⟨_, hge⟩; omega
        · rintro ⟨hek, _⟩; exact hsk ((hes ▸ hek : s = k))
        · rintro ⟨hne, _, _⟩; exact hne hes
      · by_cases hek : e.1 = k
        · rw [hek] at hval
          have hgt : 0 < e.2 := hval ▸ hnk
          refine ⟨?_, ?_, ?_⟩
          · rintro ⟨h, _⟩; exact hes h
          · rintro ⟨_, hle⟩; omega
          · rintro ⟨_, hne, _⟩; exact hne hek
        · have h0 : netFlowOf p e.1 = 0 := hzero e.1 hsr hes hek
          rw [h0] at hval
          refine ⟨?_, ?_, ?_⟩
          · rintro ⟨h, _⟩; exact hes h
          · rintro ⟨h, _⟩; exact hek h
          · rintro ⟨_, _, hne0⟩; exact hne0 hval
  · intro e he
    cases hss : getSourceAndSink p with
    | error e2 =>
      rw [assertNoNettedFlowMismatch, hss] at he
      have h2 : (Except.error e2 : Except PyExn Unit) = .error e := he
      injection h2 with h3
      rw [getSourceAndSink] at hss
      split_ifs at hss
      injection hss with h4
      exact ⟨_, h3 ▸ h4.symm⟩
    | ok sk =>
      rw [assertNoNettedFlowMismatch, hss] at he
      exact checkNetFlowEntries_error_shape sk.1 sk.2 (computeNettedFlow p) e he

/-- Witness for C2 at a concrete conservative two-hop path. -/
theorem assert_no_netted_flow_mismatch_witness :
    conservationOk ⟨5, [⟨"0xa", "0xb", "0xa", 5⟩, ⟨"0xb", "0xc", "0xb", 5⟩]⟩ :=
  (assert_no_netted_flow_mismatch_iff
    ⟨5, [⟨"0xa", "0xb", "0xa", 5⟩, ⟨"0xb", "0xc", "0xb", 5⟩]⟩).1.mp rfl

end Circles
